import Mathlib

/-!
Verification of the Chadsembler assembler and virtual machine.

Binary strings are modelled as lists of characters over the alphabet
['0', '1'], mirroring the Python source which manipulates plain strings.
Loops of the source are modelled with an explicit fuel argument equal to a
bound on the number of iterations, so that every definition is executable
by kernel reduction.
-/

namespace BinaryString

/-! ### binarystring.py -/

/-- Numeric value of a binary digit character. -/
def bitVal (c : Char) : Nat := if c = '1' then 1 else 0

/-- Binary digits of a natural number, least significant first, with an
explicit fuel argument (fuel = n always suffices since n / 2 < n). -/
def bitsGo : Nat → Nat → List Char
  | _, 0 => []
  | 0, _ + 1 => []
  | fuel + 1, n + 1 =>
    (if (n + 1) % 2 = 1 then '1' else '0') :: bitsGo fuel ((n + 1) / 2)

/-- Binary digits of a natural number, least significant first. -/
def natBitsLE (n : Nat) : List Char := bitsGo n n

/-- BinaryString.toBinary: bin(abs(denaryNumber))[2:], the minimal binary
representation of the magnitude, most significant digit first. -/
def toBinary (denaryNumber : Int) : List Char :=
  if denaryNumber.natAbs = 0 then ['0'] else (natBitsLE denaryNumber.natAbs).reverse

/-- BinaryString.numberOfBits: length of the binary representation. -/
def numberOfBits (denaryNumber : Int) : Nat := (toBinary denaryNumber).length

/-- BinaryString.padBinary: left pad with padNumber copies of padValue. -/
def padBinary (binaryString : List Char) (padNumber : Nat) (padValue : Char := '0') :
    List Char :=
  List.replicate padNumber padValue ++ binaryString

/-- BinaryString.unsignedInteger: value modulo 2^bits, left padded with zeros. -/
def unsignedInteger (denaryValue : Int) (numberOfBits0 : Nat) : List Char :=
  let nb := if numberOfBits0 < 1 then 1 else numberOfBits0
  let binaryAsString := toBinary (denaryValue % ((2 ^ nb : Nat) : Int))
  padBinary binaryAsString (nb - binaryAsString.length) '0'

/-- BinaryString.signedInteger: a sign bit followed by the magnitude
modulo 2^(bits-1), left padded with zeros. -/
def signedInteger (denaryValue : Int) (numberOfBits0 : Nat) : List Char :=
  let nb := if numberOfBits0 < 2 then 2 else numberOfBits0
  let signBit : Char := if denaryValue < 0 then '1' else '0'
  let magnitude : Int := if denaryValue < 0 then (denaryValue.natAbs : Int) else denaryValue
  let binaryAsString := toBinary (magnitude % ((2 ^ (nb - 1) : Nat) : Int))
  signBit :: padBinary binaryAsString (nb - binaryAsString.length - 1) '0'

/-- BinaryString.readUnsignedInteger: int(s, 2). -/
def readUnsignedInteger (unsignedInteger0 : List Char) : Nat :=
  unsignedInteger0.foldl (fun acc c => 2 * acc + bitVal c) 0

/-- BinaryString.readSignedInteger: sign from the first character, magnitude
from the remaining characters. -/
def readSignedInteger (signedInteger0 : List Char) : Int :=
  (if signedInteger0.headD '0' = '0' then 1 else -1) *
    (readUnsignedInteger signedInteger0.tail : Int)

/-- BinaryString.logicalShiftLeft: MSB to carry, right-pad with a zero. -/
def logicalShiftLeft (binaryString : List Char) : Char × List Char :=
  (binaryString.headD '0', binaryString.tail ++ ['0'])

/-- BinaryString.logicalShiftRight: LSB to carry, left-pad with a zero. -/
def logicalShiftRight (binaryString : List Char) : Char × List Char :=
  (binaryString.getLastD '0', '0' :: binaryString.dropLast)

/-- BinaryString.arithmeticShiftLeft: second bit to carry, right-pad with the MSB. -/
def arithmeticShiftLeft (binaryString : List Char) : Char × List Char :=
  (binaryString.tail.headD '0', binaryString.tail ++ [binaryString.headD '0'])

/-- BinaryString.arithmeticShiftRight: LSB to carry, left-pad with the MSB. -/
def arithmeticShiftRight (binaryString : List Char) : Char × List Char :=
  (binaryString.getLastD '0', binaryString.headD '0' :: binaryString.dropLast)

/-- BinaryString.circularShiftLeft: the MSB wraps around to the LSB. -/
def circularShiftLeft (binaryString : List Char) : List Char :=
  binaryString.tail ++ [binaryString.headD '0']

/-- BinaryString.circularShiftRight: the LSB wraps around to the MSB. -/
def circularShiftRight (binaryString : List Char) : List Char :=
  binaryString.getLastD '0' :: binaryString.dropLast

/-- BinaryString.circularShiftLeftWithCarry: MSB to carry, right-pad with the
previous carry bit. -/
def circularShiftLeftWithCarry (binaryString : List Char) (carryBit : Char := '0') :
    Char × List Char :=
  (binaryString.headD '0', binaryString.tail ++ [carryBit])

/-- BinaryString.circularShiftRightWithCarry: LSB to carry, left-pad with the
previous carry bit. -/
def circularShiftRightWithCarry (binaryString : List Char) (carryBit : Char := '0') :
    Char × List Char :=
  (binaryString.getLastD '0', carryBit :: binaryString.dropLast)

/-! ### Arithmetic facts about the binary string encoding -/

theorem readUnsignedInteger_foldl_acc (l : List Char) (a : Nat) :
    l.foldl (fun acc c => 2 * acc + bitVal c) a = a * 2 ^ l.length + readUnsignedInteger l := by
  induction l generalizing a with
  | nil => simp [readUnsignedInteger]
  | cons c cs ih =>
    have h0 : readUnsignedInteger (c :: cs) =
        cs.foldl (fun acc c => 2 * acc + bitVal c) (bitVal c) := by
      simp [readUnsignedInteger]
    rw [List.foldl_cons, ih, h0, ih (bitVal c)]
    simp [List.length_cons]
    ring

theorem readUnsignedInteger_append (l r : List Char) :
    readUnsignedInteger (l ++ r) =
      readUnsignedInteger l * 2 ^ r.length + readUnsignedInteger r := by
  have h : readUnsignedInteger (l ++ r) =
      r.foldl (fun acc c => 2 * acc + bitVal c) (readUnsignedInteger l) := by
    simp [readUnsignedInteger, List.foldl_append]
  rw [h, readUnsignedInteger_foldl_acc]

theorem readUnsignedInteger_replicate_zero (k : Nat) :
    readUnsignedInteger (List.replicate k '0') = 0 := by
  induction k with
  | zero => rfl
  | succ n ih =>
    have h : List.replicate (n + 1) '0' = '0' :: List.replicate n '0' := rfl
    have h2 : readUnsignedInteger ('0' :: List.replicate n '0') =
        (List.replicate n '0').foldl (fun acc c => 2 * acc + bitVal c) 0 := by
      simp [readUnsignedInteger, bitVal]
    rw [h, h2]
    exact ih

theorem readUnsignedInteger_pad (l : List Char) (k : Nat) :
    readUnsignedInteger (List.replicate k '0' ++ l) = readUnsignedInteger l := by
  rw [readUnsignedInteger_append, readUnsignedInteger_replicate_zero]
  simp

/-- Value of a list of binary digits read least significant first. -/
def valLE : List Char → Nat
  | [] => 0
  | c :: cs => bitVal c + 2 * valLE cs

theorem readUnsignedInteger_reverse (l : List Char) :
    readUnsignedInteger l.reverse = valLE l := by
  induction l with
  | nil => rfl
  | cons c cs ih =>
    rw [List.reverse_cons, readUnsignedInteger_append, ih]
    have h : readUnsignedInteger [c] = bitVal c := by
      simp [readUnsignedInteger]
    rw [h]
    simp [valLE]
    ring

theorem valLE_bitsGo (fuel n : Nat) (h : n ≤ fuel) : valLE (bitsGo fuel n) = n := by
  induction fuel generalizing n with
  | zero =>
    interval_cases n
    rfl
  | succ f ih =>
    match n with
    | 0 => rfl
    | m + 1 =>
      have hdiv : (m + 1) / 2 ≤ f := by
        have := Nat.div_le_self (m + 1) 2
        omega
      rw [bitsGo]
      rw [valLE, ih _ hdiv]
      rcases Nat.mod_two_eq_zero_or_one (m + 1) with hm | hm
      · rw [if_neg (by omega)]
        have := Nat.div_add_mod (m + 1) 2
        simp [bitVal]
        omega
      · rw [if_pos hm]
        have := Nat.div_add_mod (m + 1) 2
        simp [bitVal]
        omega

theorem readUnsignedInteger_toBinary (n : Nat) :
    readUnsignedInteger (toBinary (n : Int)) = n := by
  unfold toBinary
  rcases Nat.eq_zero_or_pos n with h | h
  · subst h
    rfl
  · rw [if_neg (by simpa using Nat.pos_iff_ne_zero.mp h)]
    rw [Int.natAbs_ofNat]
    rw [readUnsignedInteger_reverse]
    exact valLE_bitsGo n n le_rfl

theorem length_bitsGo (fuel n : Nat) (h1 : 1 ≤ n) (h2 : n ≤ fuel) :
    (bitsGo fuel n).length = Nat.log2 n + 1 := by
  induction fuel generalizing n with
  | zero => omega
  | succ f ih =>
    match n, h1 with
    | m + 1, _ =>
      rw [bitsGo]
      rcases Nat.lt_or_ge (m + 1) 2 with hsmall | hbig
      · have hm : m = 0 := by omega
        subst hm
        simp [bitsGo, Nat.log2]
      · have hdiv1 : 1 ≤ (m + 1) / 2 := by
          have := Nat.div_add_mod (m + 1) 2
          omega
        have hdiv2 : (m + 1) / 2 ≤ f := by
          have := Nat.div_le_self (m + 1) 2
          omega
        rw [List.length_cons, ih _ hdiv1 hdiv2]
        have hlog : Nat.log2 (m + 1) = Nat.log2 ((m + 1) / 2) + 1 := by
          rw [Nat.log2]
          rw [if_pos hbig]
        omega

theorem numberOfBits_eq_log2 (n : Nat) (h : 1 ≤ n) :
    numberOfBits (n : Int) = Nat.log2 n + 1 := by
  unfold numberOfBits toBinary
  rw [if_neg (by simpa using Nat.pos_iff_ne_zero.mp h), Int.natAbs_ofNat]
  rw [List.length_reverse]
  exact length_bitsGo n n h le_rfl

theorem length_toBinary_le (n : Nat) (b : Nat) (hb : 1 ≤ b) (h : n < 2 ^ b) :
    (toBinary (n : Int)).length ≤ b := by
  rcases Nat.eq_zero_or_pos n with h0 | h0
  · subst h0
    simpa [toBinary] using hb
  · have := numberOfBits_eq_log2 n h0
    unfold numberOfBits at this
    rw [this]
    have hlog : Nat.log2 n < b := by
      have h2 : n < 2 ^ b := h
      by_contra hcon
      push_neg at hcon
      have : 2 ^ b ≤ 2 ^ Nat.log2 n := Nat.pow_le_pow_right (by omega) hcon
      have hpow : 2 ^ Nat.log2 n ≤ n := Nat.log2_self_le (by omega)
      omega
    omega

/-- C1 helper: reading back the padded magnitude recovers the reduced value. -/
theorem readUnsignedInteger_padded_toBinary (m : Nat) (k : Nat) :
    readUnsignedInteger (padBinary (toBinary (m : Int)) k '0') = m := by
  unfold padBinary
  rw [readUnsignedInteger_pad, readUnsignedInteger_toBinary]

/-- C1: for every integer n and every width W >= 2, decoding the signed
encoding round-trips: readSignedInteger (signedInteger n W) equals
sign(n) * (|n| mod 2^(W-1)), i.e. n reduced modulo 2^(W-1) with its sign
preserved (negative zero decodes equal to zero). -/
theorem readSignedInteger_signedInteger (n : Int) (W : Nat) (hW : 2 ≤ W) :
    readSignedInteger (signedInteger n W) =
      Int.sign n * ((n.natAbs % 2 ^ (W - 1) : Nat) : Int) := by
  have h2 : ¬ W < 2 := by omega
  have hmagId : (if n < 0 then ((n.natAbs : Int)) else n) = (n.natAbs : Int) := by
    rcases lt_or_ge n 0 with h | h
    · rw [if_pos h]
    · rw [if_neg (by omega)]
      exact (Int.natAbs_of_nonneg h).symm
  have hmod : ((n.natAbs : Int)) % ((2 ^ (W - 1) : Nat) : Int) =
      ((n.natAbs % 2 ^ (W - 1) : Nat) : Int) := (Int.natCast_mod _ _).symm
  simp only [signedInteger, if_neg h2, hmagId, hmod]
  simp only [readSignedInteger, List.headD_cons, List.tail_cons]
  rw [readUnsignedInteger_padded_toBinary]
  rcases lt_or_ge n 0 with hneg | hpos
  · rw [Int.sign_eq_neg_one_of_neg hneg]
    simp [if_pos hneg, show ('1' : Char) ≠ '0' by decide]
  · rcases eq_or_lt_of_le hpos with hz | hgt
    · rw [← hz]
      simp
    · rw [Int.sign_eq_one_of_pos hgt]
      simp [show ¬ n < 0 by omega]

/-- C1 witness: the round-trip theorem applied at n = -13, W = 5. -/
theorem readSignedInteger_signedInteger_witness :
    2 ≤ 5 ∧ readSignedInteger (signedInteger (-13) 5) =
      Int.sign (-13) * (((-13 : Int).natAbs % 2 ^ (5 - 1) : Nat) : Int) :=
  ⟨by decide, readSignedInteger_signedInteger (-13) 5 (by decide)⟩

/-- A cell whose sign bit is '0' has equal signed and unsigned readings. -/
theorem readSignedInteger_eq_readUnsignedInteger (cell : List Char)
    (h : cell.headD '0' = '0') :
    readSignedInteger cell = (readUnsignedInteger cell : Int) := by
  match cell with
  | [] => rfl
  | c :: rest =>
    have hc : c = '0' := h
    subst hc
    simp only [readSignedInteger, List.headD_cons, List.tail_cons]
    have : readUnsignedInteger ('0' :: rest) = readUnsignedInteger rest := by
      simp [readUnsignedInteger, bitVal]
    rw [this]
    simp

end BinaryString

namespace VirtualMachine

/-! ### virtualmachine.py -/

/-- The continuation condition of VirtualMachine.run, the fetch-decode-execute
loop: iterate while the SIGNED reading of the Program Counter cell is below
the number of memory addresses. -/
def runLoopContinues (pcCell : List Char) (numberOfMemoryAddresses : Int) : Bool :=
  decide (BinaryString.readSignedInteger pcCell < numberOfMemoryAddresses)

/-- C2 counterexample: with the minimal configuration (W = 24 instruction
bits, 2^7 = 128 memory cells) the PC cell consisting of a '1' sign bit
followed by 23 zeros has unsigned reading 2^23 >= 128, yet the run loop does
NOT stop: its guard reads the PC with readSignedInteger, obtaining -0 = 0 <
128, so another iteration is executed. -/
theorem runLoop_unsigned_claim_false :
    128 ≤ BinaryString.readUnsignedInteger ('1' :: List.replicate 23 '0') ∧
      runLoopContinues ('1' :: List.replicate 23 '0') 128 = true := by
  constructor
  · decide
  · decide

/-- C2 amended: the run loop stops (executes no further instruction) exactly
when the SIGNED reading of the Program Counter cell reaches the memory cell
count; for PC cells whose sign bit is '0' this agrees with the claim's
unsigned reading. -/
theorem runLoop_stops_iff (pcCell : List Char) (cellCount : Int)
    (h : pcCell.headD '0' = '0') :
    runLoopContinues pcCell cellCount = false ↔
      cellCount ≤ (BinaryString.readUnsignedInteger pcCell : Int) := by
  unfold runLoopContinues
  rw [BinaryString.readSignedInteger_eq_readUnsignedInteger pcCell h]
  simp

/-- C2 witness: the amended theorem applied to the PC cell 001 with cell
count 1. -/
theorem runLoop_stops_iff_witness :
    (['0', '0', '1'].headD '0' = '0') ∧
      (runLoopContinues ['0', '0', '1'] 1 = false ↔
        (1 : Int) ≤ (BinaryString.readUnsignedInteger ['0', '0', '1'] : Int)) :=
  ⟨by decide, runLoop_stops_iff ['0', '0', '1'] 1 (by decide)⟩

end VirtualMachine

namespace MachineOperations

/-! ### machineoperations.py, the six carry-writing shift instructions -/

/-- The six carry-writing shift machine operations. -/
inductive CarryShiftKind
  | lsl
  | lsr
  | asl
  | asr
  | cslc
  | csrc
deriving DecidableEq

/-- One iteration of the shift loop body: the statement
newFlagValue, newValue = BinaryString.shift(newValue[, newFlagValue]). -/
def carryShiftStep : CarryShiftKind → Char → List Char → Char × List Char
  | .lsl, _, value => BinaryString.logicalShiftLeft value
  | .lsr, _, value => BinaryString.logicalShiftRight value
  | .asl, _, value => BinaryString.arithmeticShiftLeft value
  | .asr, _, value => BinaryString.arithmeticShiftRight value
  | .cslc, carry, value => BinaryString.circularShiftLeftWithCarry value carry
  | .csrc, carry, value => BinaryString.circularShiftRightWithCarry value carry

/-- The count-controlled loop of LSL/LSR/ASL/ASR/CSLC/CSRC, threading the
carry bit and the shifted value. -/
def carryShiftLoop (kind : CarryShiftKind) : Nat → Char → List Char → Char × List Char
  | 0, flag, value => (flag, value)
  | n + 1, flag, value =>
    carryShiftLoop kind n (carryShiftStep kind flag value).1 (carryShiftStep kind flag value).2

/-- A carry-writing shift machine operation (MachineOperations.LSL and its
five siblings): the initial carry is the last character of the Flags cell,
the loop shifts the destination cell sourceOperand times, then the Flags
cell is rewritten to padBinary(finalCarry, totalNumberOfBits - 1) and the
destination cell to the shifted value.  Returns (new Flags cell, new
destination cell). -/
def carryShiftOperation (kind : CarryShiftKind) (totalNumberOfBits : Nat)
    (sourceOperand : Nat) (flagsCell destinationCell : List Char) :
    List Char × List Char :=
  (BinaryString.padBinary
      [(carryShiftLoop kind sourceOperand (flagsCell.getLastD '0') destinationCell).1]
      (totalNumberOfBits - 1) '0',
    (carryShiftLoop kind sourceOperand (flagsCell.getLastD '0') destinationCell).2)

/-- C3 counterexample: at width W = 4, executing LSL with shift count 1 on
destination cell 0110 and Flags cell 0000 leaves a Flags cell of length 4 =
W, not W - 1 = 3 as the claim (following the spec's design note) states. -/
theorem carryShift_flags_length_claim_false :
    (carryShiftOperation CarryShiftKind.lsl 4 1 ['0', '0', '0', '0']
        ['0', '1', '1', '0']).1.length ≠ 4 - 1 := by
  decide

/-- C3 amended: after any carry-writing shift instruction (LSL, LSR, ASL,
ASR, CSLC, CSRC) with any shift count, the Flags cell holds the final carry
bit as its last character, left-padded with W - 1 zero characters; its
length is therefore W, the same as every other cell (padBinary prepends
padNumber characters, so the Flags cell is NOT one bit shorter). -/
theorem carryShift_flags_cell (kind : CarryShiftKind) (W src : Nat)
    (flagsCell destinationCell : List Char) (hW : 1 ≤ W) :
    (carryShiftOperation kind W src flagsCell destinationCell).1 =
        List.replicate (W - 1) '0' ++
          [(carryShiftLoop kind src (flagsCell.getLastD '0') destinationCell).1] ∧
      (carryShiftOperation kind W src flagsCell destinationCell).1.length = W := by
  constructor
  · rfl
  · simp [carryShiftOperation, BinaryString.padBinary]
    omega

/-- C3 witness: the amended theorem applied to a CSRC instruction at W = 4. -/
theorem carryShift_flags_cell_witness :
    1 ≤ 4 ∧
      ((carryShiftOperation CarryShiftKind.csrc 4 2 ['0', '0', '0', '1']
            ['0', '1', '1', '0']).1 =
          List.replicate (4 - 1) '0' ++
            [(carryShiftLoop CarryShiftKind.csrc 2
                ((['0', '0', '0', '1'] : List Char).getLastD '0')
                ['0', '1', '1', '0']).1] ∧
        (carryShiftOperation CarryShiftKind.csrc 4 2 ['0', '0', '0', '1']
            ['0', '1', '1', '0']).1.length = 4) :=
  ⟨by decide,
    carryShift_flags_cell CarryShiftKind.csrc 4 2 ['0', '0', '0', '1']
      ['0', '1', '1', '0'] (by decide)⟩

end MachineOperations

namespace KeyWords

/-! ### keywords.py, cached counts -/

/-- KeyWords.NUMBER_OF_INSTRUCTIONS = len(INSTRUCTION_SET), the 27 opcodes. -/
def NUMBER_OF_INSTRUCTIONS : Nat := 27

/-- KeyWords.NUMBER_OF_ADDRESSING_MODES = len("#@>%"), the 4 addressing modes. -/
def NUMBER_OF_ADDRESSING_MODES : Nat := 4

/-- KeyWords.NUMBER_OF_SPECIAL_PURPOSE_REGISTERS = len(SPECIAL_PURPOSE_REGISTERS_OFFSET),
the 4 special purpose registers ACC, PC, RR, FR. -/
def NUMBER_OF_SPECIAL_PURPOSE_REGISTERS : Nat := 4

end KeyWords

namespace CodeGenerator

/-! ### codegenerator.py -/

/-- The while loop of CodeGenerator.__wrapAround with an explicit fuel
argument; at the call site (lowerBound 1, upperBound >= 1) each iteration
decreases the value by at least one, so fuel = value suffices. -/
def wrapAroundGo : Nat → Int → Int → Int → Int
  | 0, _, _, value => value
  | fuel + 1, lowerBound, upperBound, value =>
    if value > upperBound then
      wrapAroundGo fuel lowerBound upperBound ((lowerBound - 1) + (value - upperBound))
    else value

/-- CodeGenerator.__wrapAround: while value > upperBound, replace value by
(lowerBound - 1) + (value - upperBound). -/
def wrapAround (lowerBound upperBound value : Int) : Int :=
  wrapAroundGo value.toNat lowerBound upperBound value

/-- CodeGenerator.__calculateNumberOfOperandBits: one more bit (the sign
bit) than the binary length of the larger of the memory address count and
the total register count. -/
def calculateNumberOfOperandBits (memory registers : Nat) : Nat :=
  (if memory > registers + KeyWords.NUMBER_OF_SPECIAL_PURPOSE_REGISTERS then
      BinaryString.numberOfBits (memory : Int)
    else
      BinaryString.numberOfBits
        ((registers + KeyWords.NUMBER_OF_SPECIAL_PURPOSE_REGISTERS : Nat) : Int)) + 1

/-- CodeGenerator.__init__: machine operation field width. -/
def numberOfMachineOperationBits : Nat :=
  BinaryString.numberOfBits (KeyWords.NUMBER_OF_INSTRUCTIONS : Int)

/-- CodeGenerator.__init__: addressing mode field width. -/
def numberOfAddressingModeBits : Nat :=
  BinaryString.numberOfBits (KeyWords.NUMBER_OF_ADDRESSING_MODES : Int)

/-- CodeGenerator.__init__: total instruction width
W = M + A + 2 * O for a configuration of memory cells and
general purpose registers. -/
def totalNumberOfInstructionBits (memory registers : Nat) : Nat :=
  numberOfMachineOperationBits + numberOfAddressingModeBits +
    2 * calculateNumberOfOperandBits memory registers

/-- The value of a ceiling base-b logarithm pinned down by two power bounds. -/
theorem clog_eq_of_bounds (b x v : Nat) (hb : 1 < b) (h1 : x ≤ b ^ v)
    (h2 : b ^ (v - 1) < x) (h3 : 1 ≤ v) : Nat.clog b x = v := by
  have ha : Nat.clog b x ≤ v := (Nat.le_pow_iff_clog_le hb).mp h1
  have hc : v - 1 < Nat.clog b x := (Nat.pow_lt_iff_lt_clog hb).mp h2
  omega

/-- C4 counterexample: at the default configuration (memory 100, registers
10) the emitted width is 24 = 5 + 3 + 2*8, but the claim's formula with
M = ceil(log2 27) = 5, A = ceil(log2 4) = 2 and
O = ceil(log2 max(100, 10+4)) + 1 = 8 gives 23: the code uses binary digit
counts (floor(log2) + 1), which differ from ceil(log2) at exact powers of
two such as the 4 addressing modes. -/
theorem widths_ceil_log_claim_false :
    totalNumberOfInstructionBits 100 10 ≠
      Nat.clog 2 27 + Nat.clog 2 4 + 2 * (Nat.clog 2 (max 100 (10 + 4)) + 1) := by
  have hL : totalNumberOfInstructionBits 100 10 = 24 := by decide
  have hmax : max 100 (10 + 4) = 100 := by norm_num
  have hM : Nat.clog 2 27 = 5 :=
    clog_eq_of_bounds 2 27 5 (by norm_num) (by norm_num) (by norm_num) (by norm_num)
  have hA : Nat.clog 2 4 = 2 :=
    clog_eq_of_bounds 2 4 2 (by norm_num) (by norm_num) (by norm_num) (by norm_num)
  have hO : Nat.clog 2 100 = 7 :=
    clog_eq_of_bounds 2 100 7 (by norm_num) (by norm_num) (by norm_num) (by norm_num)
  rw [hL, hmax, hM, hA, hO]
  norm_num

/-- C4 amended: for every configuration, the emitted widths satisfy
W = M + A + 2*O where M = floor(log2 27) + 1 = 5 and
A = floor(log2 4) + 1 = 3 are the binary digit counts of the 27 opcodes and
4 addressing modes, and O = (floor(log2 max(m, g + 4)) + 1) + 1 is the
binary digit count of the larger of the memory cell count and the total
register count, plus one sign bit. -/
theorem totalNumberOfInstructionBits_formula (memory registers : Nat) :
    totalNumberOfInstructionBits memory registers =
      (Nat.log2 27 + 1) + (Nat.log2 4 + 1) +
        2 * ((Nat.log2 (max memory (registers + 4)) + 1) + 1) := by
  have hbits : calculateNumberOfOperandBits memory registers =
      BinaryString.numberOfBits ((max memory (registers + 4) : Nat) : Int) + 1 := by
    unfold calculateNumberOfOperandBits KeyWords.NUMBER_OF_SPECIAL_PURPOSE_REGISTERS
    rcases le_or_lt memory (registers + 4) with h | h
    · rw [if_neg (by omega), Nat.max_eq_right h]
    · rw [if_pos (by omega), Nat.max_eq_left (by omega)]
  have hmaxpos : 1 ≤ max memory (registers + 4) := by
    have : registers + 4 ≤ max memory (registers + 4) := le_max_right _ _
    omega
  unfold totalNumberOfInstructionBits numberOfMachineOperationBits
    numberOfAddressingModeBits KeyWords.NUMBER_OF_INSTRUCTIONS
    KeyWords.NUMBER_OF_ADDRESSING_MODES
  rw [hbits]
  rw [BinaryString.numberOfBits_eq_log2 27 (by norm_num),
    BinaryString.numberOfBits_eq_log2 4 (by norm_num),
    BinaryString.numberOfBits_eq_log2 _ hmaxpos]

/-- C7 helper: the wrap loop computed with sufficient fuel equals the
closed-form modulo expression. -/
theorem wrapAroundGo_eq_mod (G : Int) (hG : 1 ≤ G) :
    ∀ (fuel : Nat) (v : Int), 1 ≤ v → v ≤ (fuel : Int) →
      wrapAroundGo fuel 1 G v = 1 + (v - 1) % G := by
  intro fuel
  induction fuel with
  | zero =>
    intro v hv hle
    simp only [Nat.cast_zero] at hle
    omega
  | succ f ih =>
    intro v hv hle
    rw [wrapAroundGo]
    rcases lt_or_ge G v with hgt | hle2
    · rw [if_pos (by omega)]
      have harg : (1 - 1) + (v - G) = v - G := by ring
      rw [harg]
      have h1 : 1 ≤ v - G := by omega
      have h2 : v - G ≤ (f : Int) := by
        push_cast at hle ⊢
        omega
      rw [ih (v - G) h1 h2]
      have : v - G - 1 = v - 1 - G := by ring
      rw [this, Int.emod_sub_cancel]
    · rw [if_neg (by omega)]
      have : (v - 1) % G = v - 1 := Int.emod_eq_of_lt (by omega) (by omega)
      omega

/-- C7: for every positive v and register count G >= 1, the code
generator's wrap loop terminates and returns 1 + ((v - 1) mod G), which is
also lo + ((v - lo) mod (hi - lo + 1)) for lo = 1, hi = G, a value in
[1 .. G]. -/
theorem wrapAround_eq_mod (v G : Int) (hv : 1 ≤ v) (hG : 1 ≤ G) :
    wrapAround 1 G v = 1 + (v - 1) % G ∧
      wrapAround 1 G v = 1 + (v - 1) % (G - 1 + 1) ∧
      1 ≤ wrapAround 1 G v ∧ wrapAround 1 G v ≤ G := by
  have hfuel : v ≤ ((v.toNat : Nat) : Int) := by
    rw [Int.toNat_of_nonneg (by omega)]
  have hmain : wrapAround 1 G v = 1 + (v - 1) % G :=
    wrapAroundGo_eq_mod G hG v.toNat v hv hfuel
  have hnonneg : 0 ≤ (v - 1) % G := Int.emod_nonneg _ (by omega)
  have hlt : (v - 1) % G < G := Int.emod_lt_of_pos _ (by omega)
  refine ⟨hmain, ?_, by omega, by omega⟩
  rw [hmain]
  norm_num

/-- C7 witness: the wrap rule applied at v = 7, G = 3 gives 1. -/
theorem wrapAround_eq_mod_witness :
    (1 : Int) ≤ 7 ∧ (1 : Int) ≤ 3 ∧
      (wrapAround 1 3 7 = 1 + (7 - 1) % 3 ∧
        wrapAround 1 3 7 = 1 + (7 - 1) % (3 - 1 + 1) ∧
        1 ≤ wrapAround 1 3 7 ∧ wrapAround 1 3 7 ≤ 3) :=
  ⟨by decide, by decide, wrapAround_eq_mod 7 3 (by decide) (by decide)⟩

end CodeGenerator

/-! ### defaults.py, typedtoken.py, untypedtoken.py, symboltable.py -/

namespace Defaults

/-- Defaults.convertToCasing: the whole system normalises to upper case
(uncasedString.upper(), written character by character so that it reduces
by kernel computation). -/
def convertToCasing (uncasedString : String) : String :=
  String.mk (uncasedString.data.map Char.toUpper)

/-- Defaults.DEFAULT_VARIABLE_VALUE. -/
def DEFAULT_VARIABLE_VALUE : String := "0"

end Defaults

/-- A token with a type tag; positions, which never influence control flow,
are omitted. -/
structure TypedToken where
  tokenType : Nat
  tokenValue : String
deriving DecidableEq

namespace TypedToken

/-- Token type END. -/
def END : Nat := 0

/-- Token type INSTRUCTION. -/
def INSTRUCTION : Nat := 1

/-- Token type ADDRESSING_MODE. -/
def ADDRESSING_MODE : Nat := 2

/-- Token type VALUE. -/
def VALUE : Nat := 3

/-- Token type REGISTER. -/
def REGISTER : Nat := 4

/-- Token type LABEL. -/
def LABEL : Nat := 5

/-- Token type SEPERATOR. -/
def SEPERATOR : Nat := 6

/-- Token type LEFT_BRACE. -/
def LEFT_BRACE : Nat := 7

/-- Token type RIGHT_BRACE. -/
def RIGHT_BRACE : Nat := 8

/-- Token type ASSEMBLY_DIRECTIVE. -/
def ASSEMBLY_DIRECTIVE : Nat := 9

end TypedToken

/-- An untyped token as used by the argument processor; positions are
omitted. -/
structure UntypedToken where
  tokenValue : String
deriving DecidableEq

/-- A symbol table entry (symboltableentry.py). labelValue and labelType are
integers; the parser initialises fresh entries with -1 for both. -/
structure SymbolTableEntry where
  labelIdentifier : String
  labelValue : Int
  labelType : Int
deriving DecidableEq

/-- A symbol table is a Python dict from normalised identifier to entry,
modelled as an insertion-ordered association list with unique keys. -/
abbrev SymbolTable := List (String × SymbolTableEntry)

namespace SymbolTable

/-- Label kind BRANCH_LABEL. -/
def BRANCH_LABEL : Int := 1

/-- Label kind VARIABLE_LABEL. -/
def VARIABLE_LABEL : Int := 2

/-- Label kind PROCEDURE_LABEL. -/
def PROCEDURE_LABEL : Int := 3

/-- SymbolTable.insert: dict assignment under the normalised key (replaces
in place when the key exists, appends otherwise). -/
def insert (t : SymbolTable) (labelIdentifier : String) (labelValue : Int)
    (labelType : Int) : SymbolTable :=
  if t.any (fun p => p.1 == Defaults.convertToCasing labelIdentifier) then
    t.map (fun p =>
      if p.1 == Defaults.convertToCasing labelIdentifier then
        (p.1, SymbolTableEntry.mk labelIdentifier labelValue labelType)
      else p)
  else
    t ++ [(Defaults.convertToCasing labelIdentifier,
      SymbolTableEntry.mk labelIdentifier labelValue labelType)]

/-- SymbolTable.get: lookup under the normalised key, none models the NULL
sentinel. -/
def get (t : SymbolTable) (targetLabelIdentifier : String) : Option SymbolTableEntry :=
  (t.find? (fun p => p.1 == Defaults.convertToCasing targetLabelIdentifier)).map
    (fun p => p.2)

/-- In-place mutation of the entry object fetched for the given label, as the
Python source mutates labelType and labelValue of the fetched entry. -/
def updateEntry (t : SymbolTable) (targetLabelIdentifier : String)
    (f : SymbolTableEntry → SymbolTableEntry) : SymbolTable :=
  t.map (fun p =>
    if p.1 == Defaults.convertToCasing targetLabelIdentifier then (p.1, f p.2) else p)

end SymbolTable

/-- Appending an error to an error list never returns the original list. -/
theorem append_singleton_ne (l : List String) (s : String) : l ++ [s] ≠ l := by
  intro h
  have hlen := congrArg List.length h
  simp at hlen

namespace ArgumentProcessor

/-! ### argumentprocessor.py -/

/-- ArgumentProcessor._isValidNumberOfTokens: the token-count check of one
configuration directive or argument.  Returns the validity flag together
with the updated error list: 0 tokens is silently skipped, 1 token and 3 or
more tokens record a Syntax Error, exactly 2 tokens pass. -/
def isValidNumberOfTokens (streamOfTokens : List UntypedToken)
    (processingErrors : List String) : Bool × List String :=
  if streamOfTokens.length = 0 then
    (false, processingErrors)
  else if streamOfTokens.length = 1 then
    (false, processingErrors ++ ["Syntax Error: A Key : Value pair was not found"])
  else if streamOfTokens.length = 2 then
    (true, processingErrors)
  else
    (false, processingErrors ++ ["Syntax Error: Should only contain a single Key : Value pair"])

/-- C8 counterexample: a tokenisation yielding zero tokens records NO error
(the source skips the empty case explicitly), contradicting the claim that
zero tokens records a Syntax Error. -/
theorem isValidNumberOfTokens_zero_claim_false :
    (isValidNumberOfTokens [] []).2 = [] ∧ (isValidNumberOfTokens [] []).1 = false := by
  constructor
  · rfl
  · rfl

/-- C8 amended: the processor records a Syntax Error exactly when the
tokenisation yields one token or three or more tokens; it records no
token-count error exactly when it yields zero or two tokens, and reports
the directive valid exactly when it yields two tokens (one option and one
value). -/
theorem isValidNumberOfTokens_errors_iff (streamOfTokens : List UntypedToken)
    (processingErrors : List String) :
    ((isValidNumberOfTokens streamOfTokens processingErrors).2 = processingErrors ↔
        (streamOfTokens.length = 0 ∨ streamOfTokens.length = 2)) ∧
      ((isValidNumberOfTokens streamOfTokens processingErrors).1 = true ↔
        streamOfTokens.length = 2) := by
  unfold isValidNumberOfTokens
  by_cases h0 : streamOfTokens.length = 0
  · simp [h0]
  · by_cases h1 : streamOfTokens.length = 1
    · simp [h0, h1, append_singleton_ne]
    · by_cases h2 : streamOfTokens.length = 2
      · simp [h0, h1, h2]
      · simp [h0, h1, h2, append_singleton_ne]

end ArgumentProcessor

/-- An operand: an addressing mode token paired with a value token
(operand.py). -/
structure Operand where
  addressingMode : TypedToken
  operandValue : TypedToken
deriving DecidableEq

namespace KeyWords

/-- KeyWords.DIRECT_ADDRESSING_MODE. -/
def DIRECT_ADDRESSING_MODE : String := "@"

/-- KeyWords.IMMEDIATE_ADDRESSING_MODE. -/
def IMMEDIATE_ADDRESSING_MODE : String := "#"

/-- KeyWords.INDIRECT_ADDRESSING_MODE. -/
def INDIRECT_ADDRESSING_MODE : String := ">"

/-- KeyWords.REGISTER_ADDRESSING_MODE. -/
def REGISTER_ADDRESSING_MODE : String := "%"

end KeyWords

namespace SemanticAnalyser

/-! ### semanticanalyser.py -/

/-- SemanticAnalyser.__analyseBranchOperand: validate the source operand of a
BRA/BRZ/BRP instruction against the LOCAL pool's symbol table and return the
updated error list.  When the operand is a LABEL in DIRECT mode, an Invalid
Branch Error is recorded exactly when the local lookup returns the NULL
sentinel; otherwise mode and operand kind errors are recorded. -/
def analyseBranchOperand (branchOperand : Operand) (localSymbolTable : SymbolTable)
    (errors : List String) : List String :=
  if branchOperand.addressingMode.tokenValue = KeyWords.DIRECT_ADDRESSING_MODE ∧
      branchOperand.operandValue.tokenType = TypedToken.LABEL then
    match localSymbolTable.get branchOperand.operandValue.tokenValue with
    | none =>
      errors ++ ["Invalid Branch Error: Attempting to branch to non-existent location"]
    | some _ => errors
  else
    errors ++
      (if branchOperand.addressingMode.tokenValue ≠ KeyWords.DIRECT_ADDRESSING_MODE then
        ["Invalid Addressing Mode Error: Source operand in branch instruction must be addressed in DIRECT mode"]
      else []) ++
      (if branchOperand.operandValue.tokenType ≠ TypedToken.LABEL then
        ["Invalid Operand Error: Source operand in branch instruction must be a branch label"]
      else [])

/-- A global symbol table declaring FOO as a PROCEDURE label. -/
def fooProcedureGlobalTable : SymbolTable :=
  [("FOO", SymbolTableEntry.mk "FOO" (-1) SymbolTable.PROCEDURE_LABEL)]

/-- A local symbol table declaring FOO as a VARIABLE label. -/
def fooVariableLocalTable : SymbolTable :=
  [("FOO", SymbolTableEntry.mk "FOO" 0 SymbolTable.VARIABLE_LABEL)]

/-- C6 counterexample: for the DIRECT-mode LABEL source operand FOO of a
branch instruction, (a) even though FOO is declared as a PROCEDURE label in
the global pool, the analyser records an Invalid Branch Error because it
consults only the local pool's table (it never falls back to the global
pool), and (b) when FOO is a VARIABLE label in the local pool, no error at
all is recorded, although the claim requires one. -/
theorem analyseBranchOperand_claim_false :
    SymbolTable.get fooProcedureGlobalTable "FOO" =
        some (SymbolTableEntry.mk "FOO" (-1) SymbolTable.PROCEDURE_LABEL) ∧
      analyseBranchOperand
          (Operand.mk (TypedToken.mk TypedToken.ADDRESSING_MODE "@")
            (TypedToken.mk TypedToken.LABEL "FOO")) [] [] =
        ["Invalid Branch Error: Attempting to branch to non-existent location"] ∧
      analyseBranchOperand
          (Operand.mk (TypedToken.mk TypedToken.ADDRESSING_MODE "@")
            (TypedToken.mk TypedToken.LABEL "FOO")) fooVariableLocalTable [] = [] := by
  refine ⟨by decide, by decide, by decide⟩

/-- C6 amended: for every BRA/BRZ/BRP source operand that is a LABEL in
DIRECT mode, the analyser looks the label up ONLY in the local pool's symbol
table and records no label error exactly when the label is present there,
irrespective of its kind: a local VARIABLE label passes without error, while
a BRANCH or PROCEDURE label declared only in the global pool is reported as
an Invalid Branch Error. -/
theorem analyseBranchOperand_local_only (branchOperand : Operand)
    (localSymbolTable : SymbolTable) (errors : List String)
    (hmode : branchOperand.addressingMode.tokenValue = KeyWords.DIRECT_ADDRESSING_MODE)
    (hlabel : branchOperand.operandValue.tokenType = TypedToken.LABEL) :
    analyseBranchOperand branchOperand localSymbolTable errors = errors ↔
      (localSymbolTable.get branchOperand.operandValue.tokenValue).isSome = true := by
  unfold analyseBranchOperand
  rw [if_pos ⟨hmode, hlabel⟩]
  match hget : localSymbolTable.get branchOperand.operandValue.tokenValue with
  | none =>
    simp only [Option.isSome_none]
    constructor
    · intro h
      exact absurd h (append_singleton_ne _ _)
    · intro h
      exact absurd h (by decide)
  | some e =>
    simp

/-- C6 witness: the amended theorem applied to the FOO operand with the
local VARIABLE table. -/
theorem analyseBranchOperand_local_only_witness :
    ((TypedToken.mk TypedToken.ADDRESSING_MODE "@").tokenValue =
        KeyWords.DIRECT_ADDRESSING_MODE) ∧
      ((TypedToken.mk TypedToken.LABEL "FOO").tokenType = TypedToken.LABEL) ∧
      (analyseBranchOperand
          (Operand.mk (TypedToken.mk TypedToken.ADDRESSING_MODE "@")
            (TypedToken.mk TypedToken.LABEL "FOO")) fooVariableLocalTable [] = [] ↔
        ((fooVariableLocalTable : SymbolTable).get "FOO").isSome = true) :=
  ⟨by decide, by decide,
    analyseBranchOperand_local_only
      (Operand.mk (TypedToken.mk TypedToken.ADDRESSING_MODE "@")
        (TypedToken.mk TypedToken.LABEL "FOO")) fooVariableLocalTable []
      (by decide) (by decide)⟩

end SemanticAnalyser

/-! ### Symbol table access lemmas -/

namespace SymbolTable

theorem find?_map_preserving (t : List (String × SymbolTableEntry)) (key : String)
    (g : String × SymbolTableEntry → String × SymbolTableEntry)
    (hkey : ∀ p, (g p).1 = p.1)
    (hfix : ∀ p, (p.1 == key) = true → g p = p) :
    (t.map g).find? (fun p => p.1 == key) = t.find? (fun p => p.1 == key) := by
  induction t with
  | nil => rfl
  | cons q qs ih =>
    have hgq : ((g q).1 == key) = (q.1 == key) := by rw [hkey q]
    cases hq : (q.1 == key) with
    | false =>
      rw [hq] at hgq
      rw [List.map_cons, List.find?_cons, List.find?_cons, hq, hgq]
      exact ih
    | true =>
      rw [hq] at hgq
      rw [List.map_cons, List.find?_cons, List.find?_cons, hq, hgq, hfix q hq]

theorem get_insert_other (t : SymbolTable) (id : String) (v : Int) (ty : Int)
    (k : String)
    (h : Defaults.convertToCasing k ≠ Defaults.convertToCasing id) :
    (t.insert id v ty).get k = t.get k := by
  unfold insert get
  by_cases hany : t.any (fun p => p.1 == Defaults.convertToCasing id) = true
  · rw [if_pos hany]
    rw [find?_map_preserving]
    · intro p
      by_cases hp : (p.1 == Defaults.convertToCasing id) = true
      · rw [if_pos hp]
      · rw [if_neg hp]
    · intro p hp
      have hp2 : p.1 = Defaults.convertToCasing k := by simpa using hp
      rw [if_neg]
      simp [hp2]
      intro hcon
      exact h hcon
  · rw [if_neg hany]
    rw [List.find?_append]
    have hsingle : ([(Defaults.convertToCasing id, SymbolTableEntry.mk id v ty)].find?
        (fun p => p.1 == Defaults.convertToCasing k)) = none := by
      rw [List.find?_cons_of_neg]
      · rfl
      · simp
        intro hcon
        exact h hcon.symm
    rw [hsingle, Option.or_none]

theorem get_insert_self (t : SymbolTable) (id : String) (v : Int) (ty : Int)
    (h : t.get id = none) :
    (t.insert id v ty).get id = some (SymbolTableEntry.mk id v ty) := by
  have hfind : t.find? (fun p => p.1 == Defaults.convertToCasing id) = none := by
    unfold get at h
    match hf : t.find? (fun p => p.1 == Defaults.convertToCasing id) with
    | none => exact hf
    | some p =>
      rw [hf] at h
      simp at h
  have hany : t.any (fun p => p.1 == Defaults.convertToCasing id) = false := by
    rw [List.any_eq_false]
    intro p hp
    exact List.find?_eq_none.mp hfind p hp
  unfold insert get
  rw [if_neg (by rw [hany]; simp)]
  rw [List.find?_append, hfind]
  rw [List.find?_cons, show ((Defaults.convertToCasing id,
    SymbolTableEntry.mk id v ty).1 == Defaults.convertToCasing id) = true by simp]
  rfl

theorem get_updateEntry_other (t : SymbolTable) (id : String)
    (f : SymbolTableEntry → SymbolTableEntry) (k : String)
    (h : Defaults.convertToCasing k ≠ Defaults.convertToCasing id) :
    (t.updateEntry id f).get k = t.get k := by
  unfold updateEntry get
  rw [find?_map_preserving]
  · intro p
    by_cases hp : (p.1 == Defaults.convertToCasing id) = true
    · rw [if_pos hp]
    · rw [if_neg hp]
  · intro p hp
    have hp2 : p.1 = Defaults.convertToCasing k := by simpa using hp
    rw [if_neg]
    simp [hp2]
    intro hcon
    exact h hcon

theorem get_updateEntry_self (t : SymbolTable) (id : String)
    (f : SymbolTableEntry → SymbolTableEntry) :
    (t.updateEntry id f).get id = (t.get id).map f := by
  unfold updateEntry get
  induction t with
  | nil => rfl
  | cons q qs ih =>
    cases hq : (q.1 == Defaults.convertToCasing id) with
    | false =>
      rw [List.map_cons, if_neg (by rw [hq]; simp)]
      rw [List.find?_cons, List.find?_cons, hq]
      exact ih
    | true =>
      rw [List.map_cons, if_pos hq]
      rw [List.find?_cons, List.find?_cons]
      have hq2 : (((q.1, f q.2) : String × SymbolTableEntry).1 ==
          Defaults.convertToCasing id) = true := hq
      rw [hq2]
      rfl

end SymbolTable

namespace Parser

/-! ### parser.py, label classification -/

/-- Value of a run of decimal digit characters. -/
def digitsToNat (l : List Char) : Nat := l.foldl (fun a c => 10 * a + (c.toNat - 48)) 0

/-- Python int() on the token value of a VALUE token (an optional sign
followed by decimal digits). -/
def strToInt (s : String) : Int :=
  match s.data with
  | '+' :: rest => (digitsToNat rest : Int)
  | '-' :: rest => -(digitsToNat rest : Int)
  | l => (digitsToNat l : Int)

/-- The END token the lexer guarantees at the end of every statement; used
as the default for lookahead past the end of the stream. -/
def defaultEndToken : TypedToken := TypedToken.mk TypedToken.END "/"

/-- Parser.__parseLabel: if the label is absent insert a fresh entry with
value -1 and type -1; otherwise record the duplicate and redeclaration
errors dictated by the existing entry's kind and the classification
context. -/
def parseLabel (labelToken : TypedToken) (table : SymbolTable) (errors : List String)
    (labelContext : Nat) : SymbolTable × List String :=
  match table.get labelToken.tokenValue with
  | none => (table.insert labelToken.tokenValue (-1) (-1), errors)
  | some labelSymbol =>
    if labelContext = TypedToken.INSTRUCTION then
      (table,
        if labelSymbol.labelType = SymbolTable.BRANCH_LABEL then
          errors ++ ["Branch Label Error: Duplicate branch label found"]
        else if labelSymbol.labelType = SymbolTable.VARIABLE_LABEL then
          errors ++
            ["Branch Label Error: Attempting to redeclare a variable label to a branch label"]
        else if labelSymbol.labelType = SymbolTable.PROCEDURE_LABEL then
          errors ++ ["CANNOT REDECLARE PROCEDURE LABEL"]
        else errors)
    else if labelContext = TypedToken.ASSEMBLY_DIRECTIVE then
      (table,
        if labelSymbol.labelType = SymbolTable.BRANCH_LABEL then
          errors ++
            ["Variable Label Error: Attempting to redeclare a branch label to a variable label"]
        else if labelSymbol.labelType = SymbolTable.PROCEDURE_LABEL then
          errors ++
            ["Variable Label Error: Attempting to redeclare a procedure label to a variable label"]
        else errors)
    else (table, errors)

/-- Parser.__updateInstructionPoolSymbolTable, working on the unprocessed
suffix of the token stream with fuel (one unit per loop iteration; the
initial stream length always suffices since every iteration either steps
past one token or removes at least one).  The counter is incremented at
every END token; a LABEL is classified by the token after it: DAT makes it
a VARIABLE (initialiser from the token after DAT, statement removed from
the stream by Parser.__removeVariable and the loop index stepping past the
left-over END), an INSTRUCTION makes it a BRANCH whose value is the current
counter. -/
def updatePoolGo : Nat → List TypedToken → Int → SymbolTable → List String →
    SymbolTable × List String
  | 0, _, _, table, errors => (table, errors)
  | _ + 1, [], _, table, errors => (table, errors)
  | fuel + 1, t :: rest, indexedInstructionCount, table, errors =>
    if t.tokenType = TypedToken.LABEL then
      if (rest.headD defaultEndToken).tokenType = TypedToken.ASSEMBLY_DIRECTIVE then
        updatePoolGo fuel
          (((t :: rest).dropWhile (fun x => ¬ x.tokenType = TypedToken.END)).tail)
          indexedInstructionCount
          (((parseLabel t table errors TypedToken.ASSEMBLY_DIRECTIVE).1).updateEntry
            t.tokenValue
            (fun e => SymbolTableEntry.mk e.labelIdentifier
              (if (rest.getD 1 defaultEndToken).tokenType = TypedToken.VALUE then
                strToInt (rest.getD 1 defaultEndToken).tokenValue
              else strToInt Defaults.DEFAULT_VARIABLE_VALUE)
              SymbolTable.VARIABLE_LABEL))
          (parseLabel t table errors TypedToken.ASSEMBLY_DIRECTIVE).2
      else if (rest.headD defaultEndToken).tokenType = TypedToken.INSTRUCTION then
        updatePoolGo fuel rest indexedInstructionCount
          (((parseLabel t table errors TypedToken.INSTRUCTION).1).updateEntry t.tokenValue
            (fun e => SymbolTableEntry.mk e.labelIdentifier indexedInstructionCount
              SymbolTable.BRANCH_LABEL))
          (parseLabel t table errors TypedToken.INSTRUCTION).2
      else updatePoolGo fuel rest indexedInstructionCount table errors
    else if t.tokenType = TypedToken.END then
      updatePoolGo fuel rest (indexedInstructionCount + 1) table errors
    else updatePoolGo fuel rest indexedInstructionCount table errors

/-- Parser.__updateInstructionPoolSymbolTable: classify the labels of one
instruction pool, starting with counter 0 and an empty error list. -/
def updateInstructionPoolSymbolTable (tokenStream : List TypedToken)
    (table : SymbolTable) : SymbolTable × List String :=
  updatePoolGo tokenStream.length tokenStream 0 table []

/-- A pool token stream with a bare label statement A before a branch label
B: A END B ADD END. -/
def bareLabelStream : List TypedToken :=
  [TypedToken.mk TypedToken.LABEL "A", TypedToken.mk TypedToken.END "/",
    TypedToken.mk TypedToken.LABEL "B", TypedToken.mk TypedToken.INSTRUCTION "ADD",
    TypedToken.mk TypedToken.END "/"]

/-- C5 counterexample: in the pool stream A END B ADD END the label B is
classified BRANCH with value 1, although zero INSTRUCTION tokens appear
at statement start before it (the bare label statement A END contains no
instruction, yet its END advances the counter). -/
theorem branchLabel_counts_instructions_claim_false :
    (updateInstructionPoolSymbolTable bareLabelStream []).1.get "B" =
        some (SymbolTableEntry.mk "B" 1 SymbolTable.BRANCH_LABEL) ∧
      (bareLabelStream.take 2).countP
          (fun t => t.tokenType == TypedToken.INSTRUCTION) = 0 := by
  constructor
  · rfl
  · rfl

/-- Classifying a pool whose stream contains no DAT directives and no LABEL
token sharing the normalised name k leaves the entry of k untouched. -/
theorem updatePoolGo_get_preserved (l : List TypedToken) :
    ∀ (count : Int) (table : SymbolTable) (errors : List String) (k : String),
      (∀ t ∈ l, t.tokenType ≠ TypedToken.ASSEMBLY_DIRECTIVE) →
      (∀ t ∈ l, t.tokenType = TypedToken.LABEL →
        Defaults.convertToCasing t.tokenValue ≠ Defaults.convertToCasing k) →
      ((updatePoolGo l.length l count table errors).1).get k = table.get k := by
  induction l with
  | nil =>
    intro count table errors k _ _
    rfl
  | cons t rest ih =>
    intro count table errors k hnd hlab
    have hrestnd : ∀ x ∈ rest, x.tokenType ≠ TypedToken.ASSEMBLY_DIRECTIVE := by
      intro x hx
      exact hnd x (by simp [hx])
    have hrestlab : ∀ x ∈ rest, x.tokenType = TypedToken.LABEL →
        Defaults.convertToCasing x.tokenValue ≠ Defaults.convertToCasing k := by
      intro x hx
      exact hlab x (by simp [hx])
    have hafter : (rest.headD defaultEndToken).tokenType ≠
        TypedToken.ASSEMBLY_DIRECTIVE := by
      cases rest with
      | nil => decide
      | cons r rs =>
        rw [List.headD_cons]
        exact hnd r (by simp)
    simp only [List.length_cons, updatePoolGo]
    by_cases hpL : t.tokenType = TypedToken.LABEL
    · rw [if_pos hpL, if_neg hafter]
      by_cases hpI : (rest.headD defaultEndToken).tokenType = TypedToken.INSTRUCTION
      · rw [if_pos hpI]
        have hkeyne : Defaults.convertToCasing k ≠
            Defaults.convertToCasing t.tokenValue := by
          have := hlab t (by simp) hpL
          exact fun hc => this hc.symm
        have hp1 : (parseLabel t table errors TypedToken.INSTRUCTION).1.get k =
            table.get k := by
          unfold parseLabel
          cases hg : table.get t.tokenValue with
          | none =>
            exact SymbolTable.get_insert_other table t.tokenValue (-1) (-1) k hkeyne
          | some e => rfl
        rw [ih count _ _ k hrestnd hrestlab,
          SymbolTable.get_updateEntry_other _ _ _ _ hkeyne, hp1]
      · rw [if_neg hpI]
        exact ih count table errors k hrestnd hrestlab
    · rw [if_neg hpL]
      by_cases hpE : t.tokenType = TypedToken.END
      · rw [if_pos hpE]
        exact ih (count + 1) table errors k hrestnd hrestlab
      · rw [if_neg hpE]
        exact ih count table errors k hrestnd hrestlab

/-- C5 amended, general form: in a DAT-free pool stream pre ++ lt :: post
where lt is the only LABEL token with its normalised name, lt is followed
by an INSTRUCTION token, and lt is not yet in the table, classification
records lt as a BRANCH label whose value is the starting counter plus the
number of END tokens in pre. -/
theorem updatePoolGo_branch_value (pre : List TypedToken) :
    ∀ (lt : TypedToken) (post : List TypedToken) (count : Int) (table : SymbolTable)
      (errors : List String),
      (∀ t ∈ pre ++ lt :: post, t.tokenType ≠ TypedToken.ASSEMBLY_DIRECTIVE) →
      lt.tokenType = TypedToken.LABEL →
      (post.headD defaultEndToken).tokenType = TypedToken.INSTRUCTION →
      (∀ t ∈ pre, t.tokenType = TypedToken.LABEL →
        Defaults.convertToCasing t.tokenValue ≠ Defaults.convertToCasing lt.tokenValue) →
      (∀ t ∈ post, t.tokenType = TypedToken.LABEL →
        Defaults.convertToCasing t.tokenValue ≠ Defaults.convertToCasing lt.tokenValue) →
      table.get lt.tokenValue = none →
      ((updatePoolGo (pre ++ lt :: post).length (pre ++ lt :: post) count table
            errors).1).get lt.tokenValue =
        some (SymbolTableEntry.mk lt.tokenValue
          (count + (pre.countP (fun t => t.tokenType == TypedToken.END) : Nat))
          SymbolTable.BRANCH_LABEL) := by
  induction pre with
  | nil =>
    intro lt post count table errors hnd hlt hinstr hpre hpost htab
    simp only [List.nil_append, List.length_cons, updatePoolGo]
    rw [if_pos hlt, if_neg (by rw [hinstr]; decide), if_pos hinstr]
    have hp : parseLabel lt table errors TypedToken.INSTRUCTION =
        (table.insert lt.tokenValue (-1) (-1), errors) := by
      unfold parseLabel
      rw [htab]
    rw [hp]
    have hpostnd : ∀ x ∈ post, x.tokenType ≠ TypedToken.ASSEMBLY_DIRECTIVE := by
      intro x hx
      exact hnd x (by simp [hx])
    rw [updatePoolGo_get_preserved post count _ errors lt.tokenValue hpostnd hpost]
    rw [SymbolTable.get_updateEntry_self,
      SymbolTable.get_insert_self table lt.tokenValue (-1) (-1) htab]
    simp

  | cons p pre2 ih =>
    intro lt post count table errors hnd hlt hinstr hpre hpost htab
    have hrestnd : ∀ x ∈ pre2 ++ lt :: post,
        x.tokenType ≠ TypedToken.ASSEMBLY_DIRECTIVE := by
      intro x hx
      exact hnd x (by simp [hx])
    have hpre2 : ∀ t ∈ pre2, t.tokenType = TypedToken.LABEL →
        Defaults.convertToCasing t.tokenValue ≠ Defaults.convertToCasing lt.tokenValue := by
      intro x hx
      exact hpre x (by simp [hx])
    have hafterNotDAT : ((pre2 ++ lt :: post).headD defaultEndToken).tokenType ≠
        TypedToken.ASSEMBLY_DIRECTIVE := by
      cases pre2 with
      | nil =>
        rw [List.nil_append, List.headD_cons, hlt]
        decide
      | cons q qs =>
        rw [List.cons_append, List.headD_cons]
        exact hnd q (by simp)
    simp only [List.cons_append, List.length_cons, updatePoolGo, List.append_eq]
    by_cases hpL : p.tokenType = TypedToken.LABEL
    · rw [if_pos hpL, if_neg hafterNotDAT]
      have hcount : (List.countP (fun t => t.tokenType == TypedToken.END) (p :: pre2)
          : Nat) = (List.countP (fun t => t.tokenType == TypedToken.END) pre2 : Nat) := by
        rw [List.countP_cons_of_neg]
        simp [hpL, TypedToken.LABEL, TypedToken.END]
      by_cases hpI : ((pre2 ++ lt :: post).headD defaultEndToken).tokenType =
          TypedToken.INSTRUCTION
      · rw [if_pos hpI]
        have hkeyne : Defaults.convertToCasing lt.tokenValue ≠
            Defaults.convertToCasing p.tokenValue := by
          have := hpre p (by simp) hpL
          exact fun hc => this hc.symm
        have hp1 : (parseLabel p table errors TypedToken.INSTRUCTION).1.get
            lt.tokenValue = table.get lt.tokenValue := by
          unfold parseLabel
          cases hg : table.get p.tokenValue with
          | none =>
            exact SymbolTable.get_insert_other table p.tokenValue (-1) (-1) _ hkeyne
          | some e => rfl
        have htab2 : (((parseLabel p table errors TypedToken.INSTRUCTION).1).updateEntry
            p.tokenValue
            (fun e => SymbolTableEntry.mk e.labelIdentifier count
              SymbolTable.BRANCH_LABEL)).get lt.tokenValue = none := by
          rw [SymbolTable.get_updateEntry_other _ _ _ _ hkeyne, hp1, htab]
        rw [ih lt post count _ _ hrestnd hlt hinstr hpre2 hpost htab2, hcount]
      · rw [if_neg hpI]
        rw [ih lt post count table errors hrestnd hlt hinstr hpre2 hpost htab, hcount]
    · rw [if_neg hpL]
      by_cases hpE : p.tokenType = TypedToken.END
      · rw [if_pos hpE]
        rw [ih lt post (count + 1) table errors hrestnd hlt hinstr hpre2 hpost htab]
        have hcount : (List.countP (fun t => t.tokenType == TypedToken.END) (p :: pre2)
            : Nat) =
            (List.countP (fun t => t.tokenType == TypedToken.END) pre2 : Nat) + 1 := by
          rw [List.countP_cons_of_pos]
          simp [hpE]
        rw [hcount]
        have harith : count + 1 +
            ((List.countP (fun t => t.tokenType == TypedToken.END) pre2 : Nat) : Int) =
            count + (((List.countP (fun t => t.tokenType == TypedToken.END) pre2
              : Nat) + 1 : Nat) : Int) := by
          push_cast
          ring
        rw [harith]
      · rw [if_neg hpE]
        rw [ih lt post count table errors hrestnd hlt hinstr hpre2 hpost htab]
        have hcount : (List.countP (fun t => t.tokenType == TypedToken.END) (p :: pre2)
            : Nat) = (List.countP (fun t => t.tokenType == TypedToken.END) pre2 : Nat) := by
          rw [List.countP_cons_of_neg]
          simp [hpE]
        rw [hcount]

/-- C5 amended: in every DAT-free instruction pool, a label lt occurring
exactly once (as a LABEL token, up to case normalisation), followed by an
INSTRUCTION token and not previously in the symbol table, is classified
BRANCH with symbol-table value equal to the number of END tokens (statement
terminators) appearing before it in the pool's token stream, NOT the number
of INSTRUCTION tokens at statement start: statements with no instruction,
such as a bare label alone on a line, also advance the counter through
their END token. -/
theorem branchLabel_value_eq_end_count (pre : List TypedToken) (lt : TypedToken)
    (post : List TypedToken) (table : SymbolTable)
    (hnd : ∀ t ∈ pre ++ lt :: post, t.tokenType ≠ TypedToken.ASSEMBLY_DIRECTIVE)
    (hlt : lt.tokenType = TypedToken.LABEL)
    (hinstr : (post.headD defaultEndToken).tokenType = TypedToken.INSTRUCTION)
    (hpre : ∀ t ∈ pre, t.tokenType = TypedToken.LABEL →
      Defaults.convertToCasing t.tokenValue ≠ Defaults.convertToCasing lt.tokenValue)
    (hpost : ∀ t ∈ post, t.tokenType = TypedToken.LABEL →
      Defaults.convertToCasing t.tokenValue ≠ Defaults.convertToCasing lt.tokenValue)
    (htab : table.get lt.tokenValue = none) :
    ((updateInstructionPoolSymbolTable (pre ++ lt :: post) table).1).get lt.tokenValue =
      some (SymbolTableEntry.mk lt.tokenValue
        ((pre.countP (fun t => t.tokenType == TypedToken.END) : Nat) : Int)
        SymbolTable.BRANCH_LABEL) := by
  unfold updateInstructionPoolSymbolTable
  rw [updatePoolGo_branch_value pre lt post 0 table [] hnd hlt hinstr hpre hpost htab]
  norm_num

/-- C5 witness: the amended theorem applied to the stream A END B ADD END,
giving B the value 1 = number of END tokens before it. -/
theorem branchLabel_value_eq_end_count_witness :
    (∀ t ∈ [TypedToken.mk TypedToken.LABEL "A", TypedToken.mk TypedToken.END "/"] ++
        TypedToken.mk TypedToken.LABEL "B" ::
          [TypedToken.mk TypedToken.INSTRUCTION "ADD", TypedToken.mk TypedToken.END "/"],
      t.tokenType ≠ TypedToken.ASSEMBLY_DIRECTIVE) ∧
    ((updateInstructionPoolSymbolTable
        ([TypedToken.mk TypedToken.LABEL "A", TypedToken.mk TypedToken.END "/"] ++
          TypedToken.mk TypedToken.LABEL "B" ::
            [TypedToken.mk TypedToken.INSTRUCTION "ADD",
              TypedToken.mk TypedToken.END "/"]) []).1).get
        (TypedToken.mk TypedToken.LABEL "B").tokenValue =
      some (SymbolTableEntry.mk (TypedToken.mk TypedToken.LABEL "B").tokenValue
        (([TypedToken.mk TypedToken.LABEL "A",
            TypedToken.mk TypedToken.END "/"].countP
              (fun t => t.tokenType == TypedToken.END) : Nat) : Int)
        SymbolTable.BRANCH_LABEL) :=
  ⟨by decide,
    branchLabel_value_eq_end_count
      [TypedToken.mk TypedToken.LABEL "A", TypedToken.mk TypedToken.END "/"]
      (TypedToken.mk TypedToken.LABEL "B")
      [TypedToken.mk TypedToken.INSTRUCTION "ADD", TypedToken.mk TypedToken.END "/"]
      [] (by decide) (by decide) (by decide) (by decide) (by decide) (by decide)⟩

end Parser

namespace KeyWords

/-- KeyWords.WHITE_SPACE_CHARACTERS: space, tab, vertical tab. -/
def WHITE_SPACE_CHARACTERS : List Char := [' ', '\t', '\x0b']

/-- KeyWords.LINE_BREAK_CHARACTERS: newline, carriage return, form feed. -/
def LINE_BREAK_CHARACTERS : List Char := ['\n', '\r', '\x0c']

/-- KeyWords.OPERAND_SEPERATOR_CHARACTERS. -/
def OPERAND_SEPERATOR_CHARACTERS : List Char := [',']

/-- KeyWords.BLOCK_SCOPE_CHARACTERS: the two curly braces. -/
def BLOCK_SCOPE_CHARACTERS : List Char := ['\x7b', '\x7d']

/-- KeyWords.LEFT_SCOPE_CHARACTERS: the opening curly brace. -/
def LEFT_SCOPE_CHARACTERS : List Char := ['\x7b']

/-- KeyWords.ADDRESSING_MODE_CHARACTERS. -/
def ADDRESSING_MODE_CHARACTERS : List Char := ['#', '@', '>', '%']

/-- KeyWords.VALUE_SIGNS. -/
def VALUE_SIGNS : List Char := ['+', '-']

/-- KeyWords.BEGINNING_OF_VALUE_CHARACTERS. -/
def BEGINNING_OF_VALUE_CHARACTERS : List Char :=
  ['+', '-', '1', '2', '3', '4', '5', '6', '7', '8', '9', '0']

/-- KeyWords.VALUE_CHARACTERS. -/
def VALUE_CHARACTERS : List Char :=
  ['1', '2', '3', '4', '5', '6', '7', '8', '9', '0']

/-- The keys of KeyWords.INSTRUCTION_SET. -/
def INSTRUCTION_SET_KEYS : List String :=
  ["HLT", "ADD", "SUB", "STA", "NOP", "LDA", "BRA", "BRZ", "BRP", "INP", "OUT",
    "OUTC", "OUTB", "AND", "OR", "NOT", "XOR", "LSL", "LSR", "ASL", "ASR", "CSL",
    "CSR", "CSLC", "CSRC", "CALL", "RET"]

/-- The keys of KeyWords.SPECIAL_PURPOSE_REGISTERS. -/
def SPECIAL_PURPOSE_REGISTERS_KEYS : List String :=
  ["ACCUMULATOR", "ACC", "RETURNREGISTER", "RR", "FLAGSREGISTER", "FR",
    "PROGRAMCOUNTER", "PC"]

/-- The keys of KeyWords.ADDRESSING_MODES. -/
def ADDRESSING_MODES_KEYS : List String :=
  ["IMMEDIATE", "DIRECT", "INDIRECT", "REGISTER", "#", "@", ">", "%"]

/-- The keys of KeyWords.ASSEMBLY_DIRECTIVES. -/
def ASSEMBLY_DIRECTIVES_KEYS : List String := ["DAT"]

/-- The keys of KeyWords.GENERAL_PURPOSE_REGISTER. -/
def GENERAL_PURPOSE_REGISTER_KEYS : List String := ["REGISTER", "REG", "R"]

/-- The value KeyWords.ADDRESSING_MODES maps a recognised addressing mode
keyword or symbol to: its canonical one-character symbol. -/
def addressingModeSymbol (s : String) : String :=
  if s = "IMMEDIATE" ∨ s = "#" then "#"
  else if s = "DIRECT" ∨ s = "@" then "@"
  else if s = "INDIRECT" ∨ s = ">" then ">"
  else "%"

end KeyWords

namespace Lexer

/-! ### lexer.py -/

/-- Defaults.COMMENT_PREFIX as a character. -/
def commentChar : Char := ';'

/-- Lexer.__determineTypeOfRegisterKeyword: strip the maximal digit suffix;
when what remains is a general purpose register alias and the suffix is
nonempty, return the suffix, else return the empty string. -/
def determineTypeOfRegisterKeyword (tokenSubstring : String) : String :=
  if KeyWords.GENERAL_PURPOSE_REGISTER_KEYS.contains
        (String.mk (tokenSubstring.data.take
          (tokenSubstring.data.length -
            (tokenSubstring.data.reverse.takeWhile
              (fun c => KeyWords.VALUE_CHARACTERS.contains c)).length))) ∧
      (tokenSubstring.data.reverse.takeWhile
        (fun c => KeyWords.VALUE_CHARACTERS.contains c)) ≠ [] then
    String.mk (tokenSubstring.data.reverse.takeWhile
      (fun c => KeyWords.VALUE_CHARACTERS.contains c)).reverse
  else ""

/-- Lexer.__determineTokenType: keyword table membership in priority order,
defaulting to LABEL. -/
def determineTokenType (tokenSubstring : String) : Nat :=
  if KeyWords.INSTRUCTION_SET_KEYS.contains tokenSubstring then TypedToken.INSTRUCTION
  else if KeyWords.SPECIAL_PURPOSE_REGISTERS_KEYS.contains tokenSubstring then
    TypedToken.REGISTER
  else if KeyWords.ADDRESSING_MODES_KEYS.contains tokenSubstring then
    TypedToken.ADDRESSING_MODE
  else if KeyWords.ASSEMBLY_DIRECTIVES_KEYS.contains tokenSubstring then
    TypedToken.ASSEMBLY_DIRECTIVE
  else TypedToken.LABEL

/-- Lexer.__generateValueToken: record the leading sign (defaulting to +)
followed by the digits; character validation errors do not change the
returned token and are omitted. -/
def generateValueToken (tokenSubstring : String) : TypedToken :=
  match tokenSubstring.data with
  | c :: rest =>
    if KeyWords.VALUE_SIGNS.contains c then
      TypedToken.mk TypedToken.VALUE (String.mk (c :: rest))
    else TypedToken.mk TypedToken.VALUE (String.mk ('+' :: c :: rest))
  | [] => TypedToken.mk TypedToken.VALUE "+"

/-- Lexer.__processTokenSubstring: the one token appended for a gathered
substring. -/
def processTokenSubstring (tokenSubstring : String) : TypedToken :=
  if KeyWords.BEGINNING_OF_VALUE_CHARACTERS.contains (tokenSubstring.data.headD ' ') then
    generateValueToken tokenSubstring
  else if determineTypeOfRegisterKeyword tokenSubstring ≠ "" then
    TypedToken.mk TypedToken.REGISTER (determineTypeOfRegisterKeyword tokenSubstring)
  else if determineTokenType tokenSubstring = TypedToken.ADDRESSING_MODE then
    TypedToken.mk TypedToken.ADDRESSING_MODE
      (KeyWords.addressingModeSymbol tokenSubstring)
  else TypedToken.mk (determineTokenType tokenSubstring) tokenSubstring

/-- The substring-terminating characters of Lexer.__getTokenSubstring. -/
def tokenTerminatingCharacters : List Char :=
  KeyWords.WHITE_SPACE_CHARACTERS ++ KeyWords.LINE_BREAK_CHARACTERS ++
    KeyWords.OPERAND_SEPERATOR_CHARACTERS ++ KeyWords.BLOCK_SCOPE_CHARACTERS ++
    KeyWords.ADDRESSING_MODE_CHARACTERS ++ [commentChar]

/-- The main scan loop of Lexer.__tokeniseSourceCode over the remaining
source characters, with fuel (the source length suffices: every iteration
consumes at least one character). -/
def tokeniseGo : Nat → List Char → List TypedToken → List TypedToken
  | 0, _, stream => stream
  | _ + 1, [], stream => stream
  | fuel + 1, c :: rest, stream =>
    if c = commentChar then
      tokeniseGo fuel
        ((c :: rest).dropWhile (fun ch => ¬ KeyWords.LINE_BREAK_CHARACTERS.contains ch))
        stream
    else if KeyWords.WHITE_SPACE_CHARACTERS.contains c then
      tokeniseGo fuel rest stream
    else if KeyWords.LINE_BREAK_CHARACTERS.contains c then
      tokeniseGo fuel rest
        (match stream.getLast? with
        | some t =>
          if ¬ t.tokenType = TypedToken.END then
            stream ++ [TypedToken.mk TypedToken.END "/"]
          else stream
        | none => stream)
    else if KeyWords.BLOCK_SCOPE_CHARACTERS.contains c then
      tokeniseGo fuel rest
        (stream ++
          [if KeyWords.LEFT_SCOPE_CHARACTERS.contains c then
            TypedToken.mk TypedToken.LEFT_BRACE (String.mk [c])
          else TypedToken.mk TypedToken.RIGHT_BRACE (String.mk [c])])
    else if KeyWords.OPERAND_SEPERATOR_CHARACTERS.contains c then
      tokeniseGo fuel rest (stream ++ [TypedToken.mk TypedToken.SEPERATOR ","])
    else if KeyWords.ADDRESSING_MODE_CHARACTERS.contains c then
      tokeniseGo fuel rest
        (stream ++ [TypedToken.mk TypedToken.ADDRESSING_MODE
          (KeyWords.addressingModeSymbol (String.mk [c]))])
    else
      tokeniseGo fuel
        ((c :: rest).drop
          ((c :: rest).takeWhile
            (fun ch => ¬ tokenTerminatingCharacters.contains ch)).length)
        (stream ++ [processTokenSubstring (Defaults.convertToCasing
          (String.mk ((c :: rest).takeWhile
            (fun ch => ¬ tokenTerminatingCharacters.contains ch))))])

/-- Lexer.__tokeniseSourceCode: scan the whole source, then ensure the
stream ends with exactly one END token.  The final step indexes the token
stream at -1 whenever the source is nonempty; on an empty token stream this
indexing is out of bounds (an uncaught IndexError), modelled by none. -/
def tokeniseSourceCode (sourceCode : String) : Option (List TypedToken) :=
  if sourceCode.data.length ≠ 0 then
    match (tokeniseGo sourceCode.data.length sourceCode.data []).getLast? with
    | none => none
    | some t =>
      if ¬ t.tokenType = TypedToken.END then
        some (tokeniseGo sourceCode.data.length sourceCode.data [] ++
          [TypedToken.mk TypedToken.END "/"])
      else some (tokeniseGo sourceCode.data.length sourceCode.data [])
  else some (tokeniseGo sourceCode.data.length sourceCode.data [])

/-- C9: on the non-empty source texts consisting of a single space, of one
comment, and of whitespace followed by a line break, the scan produces no
tokens and the EOF step then indexes the empty token stream at -1: the
tokenisation aborts with an out-of-bounds IndexError (modelled as none)
instead of completing, contrary to the claim.  A source with a real token
completes normally by contrast. -/
theorem tokeniseSourceCode_whitespace_crash :
    tokeniseSourceCode " " = none ∧
      tokeniseSourceCode "; a comment" = none ∧
      tokeniseSourceCode " \n" = none ∧
      tokeniseSourceCode "HLT" =
        some [TypedToken.mk TypedToken.INSTRUCTION "HLT",
          TypedToken.mk TypedToken.END "/"] := by
  refine ⟨rfl, rfl, rfl, ?_⟩
  rfl

end Lexer

/-- An instruction pool (instructionpool.py): identifier, token stream and
symbol table. -/
structure InstructionPool where
  poolIdentifier : String
  tokenStream : List TypedToken
  symbolTable : SymbolTable
deriving DecidableEq

/-- The parser's dict from procedure identifier to instruction pool,
modelled as an insertion-ordered association list with unique keys. -/
abbrev PoolMap := List (String × InstructionPool)

/-- Python dict assignment: replace in place when the key exists, append
otherwise. -/
def poolMapInsert (pools : PoolMap) (key : String) (pool : InstructionPool) : PoolMap :=
  if pools.any (fun p => p.1 == key) then
    pools.map (fun p => if p.1 == key then (p.1, pool) else p)
  else pools ++ [(key, pool)]

/-- Lookup in the pool dict. -/
def poolMapGet (pools : PoolMap) (key : String) : Option InstructionPool :=
  (pools.find? (fun p => p.1 == key)).map (fun p => p.2)

namespace Parser

/-- The pop performed by Parser.__getInstructionPools on a LEFT_BRACE: the
last token of the global pool stream is popped (popping once more when it
is an END token) to recover the procedure label.  none models the uncaught
IndexError of popping from an empty list. -/
def popProcedureLabel (globalStream : List TypedToken) :
    Option (List TypedToken × TypedToken) :=
  match globalStream.getLast? with
  | none => none
  | some popped0 =>
    if popped0.tokenType = TypedToken.END then
      (globalStream.dropLast.getLast?).map
        (fun p2 => (globalStream.dropLast.dropLast, p2))
    else some (globalStream.dropLast, popped0)

/-- Parser.__getInstructionPools together with Parser.__getProcedureTokens,
walking the unprocessed suffix with fuel (the stream length suffices: every
iteration consumes at least one token).  A LEFT_BRACE pops the procedure
label from the end of the global pool stream, collects the body up to the
matching RIGHT_BRACE into a fresh pool stored under the label (replacing
any existing pool with that identifier), and resumes after the token
following the RIGHT_BRACE; every other token is appended to the global
pool.  none models the uncaught IndexError raised when popping from an
empty global stream or when no RIGHT_BRACE follows. -/
def getInstructionPoolsGo : Nat → List TypedToken → List TypedToken → PoolMap →
    List String → Option (List TypedToken × PoolMap × List String)
  | 0, _, globalStream, pools, parsingErrors => some (globalStream, pools, parsingErrors)
  | _ + 1, [], globalStream, pools, parsingErrors =>
    some (globalStream, pools, parsingErrors)
  | fuel + 1, t :: rest, globalStream, pools, parsingErrors =>
    if t.tokenType = TypedToken.LEFT_BRACE then
      (popProcedureLabel globalStream).elim none (fun gp =>
        if ((rest.drop 1).takeWhile
              (fun x => ¬ x.tokenType = TypedToken.RIGHT_BRACE)).length =
            (rest.drop 1).length then none
        else
          getInstructionPoolsGo fuel
            (((rest.drop 1).drop
              (((rest.drop 1).takeWhile
                (fun x => ¬ x.tokenType = TypedToken.RIGHT_BRACE)).length + 1)).drop 1)
            gp.1
            (poolMapInsert pools gp.2.tokenValue
              (InstructionPool.mk gp.2.tokenValue
                ((rest.drop 1).takeWhile
                  (fun x => ¬ x.tokenType = TypedToken.RIGHT_BRACE))
                []))
            parsingErrors)
    else getInstructionPoolsGo fuel rest (globalStream ++ [t]) pools parsingErrors

/-- Parser.__getInstructionPools on a whole token stream, starting from an
empty global pool, no procedure pools and no recorded errors. -/
def getInstructionPools (streamOfTokens : List TypedToken) :
    Option (List TypedToken × PoolMap × List String) :=
  getInstructionPoolsGo streamOfTokens.length streamOfTokens [] [] []

theorem getInstructionPoolsGo_fuel_irrel (fuel : Nat) :
    ∀ (fuel2 : Nat) (l : List TypedToken) (g : List TypedToken) (pools : PoolMap)
      (errors : List String), l.length ≤ fuel → l.length ≤ fuel2 →
      getInstructionPoolsGo fuel l g pools errors =
        getInstructionPoolsGo fuel2 l g pools errors := by
  induction fuel with
  | zero =>
    intro fuel2 l g pools errors h1 h2
    have hl : l = [] := by
      cases l with
      | nil => rfl
      | cons a as => simp at h1
    subst hl
    cases fuel2 with
    | zero => rfl
    | succ f2 => rfl
  | succ f ih =>
    intro fuel2 l g pools errors h1 h2
    cases l with
    | nil =>
      cases fuel2 with
      | zero => rfl
      | succ f2 => rfl
    | cons t rest =>
      cases fuel2 with
      | zero => simp at h2
      | succ f2 =>
        have hlen1 : rest.length ≤ f := by
          simp only [List.length_cons] at h1
          omega
        have hlen2 : rest.length ≤ f2 := by
          simp only [List.length_cons] at h2
          omega
        simp only [getInstructionPoolsGo]
        by_cases hb : t.tokenType = TypedToken.LEFT_BRACE
        · rw [if_pos hb, if_pos hb]
          cases hp : popProcedureLabel g with
          | none => rfl
          | some gp =>
            simp only [Option.elim]
            by_cases hC : ((rest.drop 1).takeWhile
                  (fun x => ¬ x.tokenType = TypedToken.RIGHT_BRACE)).length =
                (rest.drop 1).length
            · rw [if_pos hC, if_pos hC]
            · rw [if_neg hC, if_neg hC]
              apply ih
              · rw [List.length_drop, List.length_drop, List.length_drop]
                omega
              · rw [List.length_drop, List.length_drop, List.length_drop]
                omega
        · rw [if_neg hb, if_neg hb]
          exact ih f2 rest (g ++ [t]) pools errors hlen1 hlen2

end Parser

namespace Parser

theorem takeWhile_append_cons {α : Type} (p : α → Bool) (b : List α) (x : α)
    (l2 : List α) (hb : ∀ t ∈ b, p t = true) (hx : p x = false) :
    (b ++ x :: l2).takeWhile p = b := by
  induction b with
  | nil => simp [List.takeWhile_cons, hx]
  | cons a as ih =>
    rw [List.cons_append, List.takeWhile_cons, hb a (by simp), if_pos rfl,
      ih (fun t ht => hb t (by simp [ht]))]

theorem getInstructionPoolsGo_cons_nonbrace (fuel : Nat) (t : TypedToken)
    (rest g : List TypedToken) (pools : PoolMap) (errors : List String)
    (h : ¬ t.tokenType = TypedToken.LEFT_BRACE) :
    getInstructionPoolsGo (fuel + 1) (t :: rest) g pools errors =
      getInstructionPoolsGo fuel rest (g ++ [t]) pools errors := by
  simp only [getInstructionPoolsGo]
  rw [if_neg h]

theorem popProcedureLabel_singleton (lab : TypedToken)
    (h : ¬ lab.tokenType = TypedToken.END) :
    popProcedureLabel [lab] = some ([], lab) := by
  show (if lab.tokenType = TypedToken.END then
      (([lab] : List TypedToken).dropLast.getLast?).map
        (fun p2 => (([lab] : List TypedToken).dropLast.dropLast, p2))
    else some (([lab] : List TypedToken).dropLast, lab)) = some ([], lab)
  rw [if_neg h]
  rfl

theorem getInstructionPoolsGo_cons_brace (fuel : Nat) (lab : TypedToken)
    (body rest2 : List TypedToken) (pools : PoolMap) (errors : List String)
    (hlabne : ¬ lab.tokenType = TypedToken.END)
    (hbody : ∀ t ∈ body, ¬ t.tokenType = TypedToken.RIGHT_BRACE) :
    getInstructionPoolsGo (fuel + 1)
        (TypedToken.mk TypedToken.LEFT_BRACE "\x7b" ::
          (TypedToken.mk TypedToken.END "/" ::
            (body ++ TypedToken.mk TypedToken.RIGHT_BRACE "\x7d" ::
              TypedToken.mk TypedToken.END "/" :: rest2)))
        [lab] pools errors =
      getInstructionPoolsGo fuel rest2 []
        (poolMapInsert pools lab.tokenValue (InstructionPool.mk lab.tokenValue body []))
        errors := by
  have htw : ((body ++ TypedToken.mk TypedToken.RIGHT_BRACE "\x7d" ::
      TypedToken.mk TypedToken.END "/" :: rest2).takeWhile
        (fun x => ¬ x.tokenType = TypedToken.RIGHT_BRACE)) = body := by
    apply takeWhile_append_cons
    · intro t ht
      simpa using hbody t ht
    · simp
  simp only [getInstructionPoolsGo]
  rw [if_pos trivial, popProcedureLabel_singleton lab hlabne]
  simp only [Option.elim, List.drop_succ_cons, List.drop_zero]
  rw [htw]
  rw [if_neg (by simp [List.length_append])]
  rw [List.drop_append]
  simp only [List.drop_succ_cons, List.drop_zero]

theorem poolMapInsert_nil (s : String) (p : InstructionPool) :
    poolMapInsert [] s p = [(s, p)] := rfl

theorem poolMapInsert_overwrite (s : String) (p1 p2 : InstructionPool) :
    poolMapInsert [(s, p1)] s p2 = [(s, p2)] := by
  unfold poolMapInsert
  rw [if_pos (by simp)]
  simp

/-- The token stream of one procedure definition: LABEL { END body } END. -/
def procStream (s : String) (body : List TypedToken) : List TypedToken :=
  [TypedToken.mk TypedToken.LABEL s, TypedToken.mk TypedToken.LEFT_BRACE "\x7b",
    TypedToken.mk TypedToken.END "/"] ++ body ++
  [TypedToken.mk TypedToken.RIGHT_BRACE "\x7d", TypedToken.mk TypedToken.END "/"]

theorem getInstructionPoolsGo_procedure (s : String) (body rest2 : List TypedToken)
    (pools : PoolMap)
    (hbody : ∀ t ∈ body, ¬ t.tokenType = TypedToken.RIGHT_BRACE) :
    getInstructionPoolsGo (procStream s body ++ rest2).length
        (procStream s body ++ rest2) [] pools [] =
      getInstructionPoolsGo rest2.length rest2 []
        (poolMapInsert pools s (InstructionPool.mk s body [])) [] := by
  have hshape : procStream s body ++ rest2 =
      TypedToken.mk TypedToken.LABEL s ::
        (TypedToken.mk TypedToken.LEFT_BRACE "\x7b" ::
          (TypedToken.mk TypedToken.END "/" ::
            (body ++ TypedToken.mk TypedToken.RIGHT_BRACE "\x7d" ::
              TypedToken.mk TypedToken.END "/" :: rest2))) := by
    simp [procStream]
  rw [hshape]
  rw [show (TypedToken.mk TypedToken.LABEL s ::
      (TypedToken.mk TypedToken.LEFT_BRACE "\x7b" ::
        (TypedToken.mk TypedToken.END "/" ::
          (body ++ TypedToken.mk TypedToken.RIGHT_BRACE "\x7d" ::
            TypedToken.mk TypedToken.END "/" :: rest2)))).length =
      (body.length + rest2.length + 4) + 1 from by
    simp [List.length_append, List.length_cons]
    omega]
  rw [getInstructionPoolsGo_cons_nonbrace _ _ _ _ _ _
    (by simp [TypedToken.LABEL, TypedToken.LEFT_BRACE])]
  rw [show ([] : List TypedToken) ++ [TypedToken.mk TypedToken.LABEL s] =
    [TypedToken.mk TypedToken.LABEL s] from by simp]
  rw [show body.length + rest2.length + 4 = (body.length + rest2.length + 3) + 1 from
    by omega]
  rw [getInstructionPoolsGo_cons_brace _ _ _ _ _ _
    (by simp [TypedToken.LABEL, TypedToken.END]) hbody]
  exact getInstructionPoolsGo_fuel_irrel _ _ _ _ _ _ (by omega) le_rfl

/-- C10: for every token stream defining two procedures with the same
identifier s (bodies b1 then b2, free of stray braces), the split pass
completes without recording any error, pops both stray procedure labels off
the global pool (leaving it empty), and its pool map retains only the later
procedure body: the second InstructionPool assigned under s silently
replaces the first. -/
theorem duplicate_procedure_silently_overwritten (s : String)
    (b1 b2 : List TypedToken)
    (h1 : ∀ t ∈ b1, ¬ t.tokenType = TypedToken.RIGHT_BRACE)
    (h2 : ∀ t ∈ b2, ¬ t.tokenType = TypedToken.RIGHT_BRACE) :
    getInstructionPools (procStream s b1 ++ procStream s b2) =
        some ([], [(s, InstructionPool.mk s b2 [])], []) ∧
      poolMapGet [(s, InstructionPool.mk s b2 [])] s =
        some (InstructionPool.mk s b2 []) := by
  constructor
  · unfold getInstructionPools
    rw [getInstructionPoolsGo_procedure s b1 (procStream s b2) [] h1]
    rw [poolMapInsert_nil]
    have happ : procStream s b2 ++ [] = procStream s b2 := List.append_nil _
    rw [← happ]
    rw [getInstructionPoolsGo_procedure s b2 []
      [(s, InstructionPool.mk s b1 [])] h2]
    rw [poolMapInsert_overwrite]
    rfl
  · unfold poolMapGet
    rw [List.find?_cons, show ((s, InstructionPool.mk s b2 []).1 == s) = true from
      by simp]
    rfl

/-- C10 witness: the overwrite theorem applied to procedure P with bodies
NOP and HLT. -/
theorem duplicate_procedure_silently_overwritten_witness :
    (∀ t ∈ [TypedToken.mk TypedToken.INSTRUCTION "NOP", TypedToken.mk TypedToken.END "/"],
        ¬ t.tokenType = TypedToken.RIGHT_BRACE) ∧
      (getInstructionPools
          (procStream "P" [TypedToken.mk TypedToken.INSTRUCTION "NOP",
              TypedToken.mk TypedToken.END "/"] ++
            procStream "P" [TypedToken.mk TypedToken.INSTRUCTION "HLT",
              TypedToken.mk TypedToken.END "/"]) =
          some ([],
            [("P", InstructionPool.mk "P"
              [TypedToken.mk TypedToken.INSTRUCTION "HLT",
                TypedToken.mk TypedToken.END "/"] [])], []) ∧
        poolMapGet [("P", InstructionPool.mk "P"
            [TypedToken.mk TypedToken.INSTRUCTION "HLT",
              TypedToken.mk TypedToken.END "/"] [])] "P" =
          some (InstructionPool.mk "P"
            [TypedToken.mk TypedToken.INSTRUCTION "HLT",
              TypedToken.mk TypedToken.END "/"] [])) :=
  ⟨by decide,
    duplicate_procedure_silently_overwritten "P"
      [TypedToken.mk TypedToken.INSTRUCTION "NOP", TypedToken.mk TypedToken.END "/"]
      [TypedToken.mk TypedToken.INSTRUCTION "HLT", TypedToken.mk TypedToken.END "/"]
      (by decide) (by decide)⟩

end Parser
